import Mathlib

/-!
Verification development for the goParser continuous synchronization engine
(`internal/monitor`): the file tracker, diff analyzer, batch processor and
enhanced monitor are shallowly embedded as pure Lean functions over explicit
state, and the spec's testable properties are settled against them.

Go `map[string]V` values are modelled as association lists updated in place;
Go `time.Time` values appear only as integer Unix seconds where the code
compares them, and wall-clock durations (processing times, rolling averages)
are elided since they are not statable.  Counters are `Nat` (the Go `int64`
counters are only ever incremented from zero).
-/

set_option autoImplicit false

namespace GoParser

/-! ### Association-list model of Go maps -/

universe u

variable {α : Type u}

/-- Lookup in an association list, the model of `m[key]` on a Go map. -/
def lookupA : List (String × α) → String → Option α
  | [], _ => none
  | (k, v) :: rest, key => if k = key then some v else lookupA rest key

/-- Insert-or-overwrite, the model of `m[key] = v` on a Go map. -/
def insertA : List (String × α) → String → α → List (String × α)
  | [], key, v => [(key, v)]
  | (k, w) :: rest, key, v =>
      if k = key then (key, v) :: rest else (k, w) :: insertA rest key v

/-- Key removal, the model of `delete(m, key)` on a Go map. -/
def eraseA : List (String × α) → String → List (String × α)
  | [], _ => []
  | (k, w) :: rest, key =>
      if k = key then eraseA rest key else (k, w) :: eraseA rest key

/-- The values of the map, the model of `for _, v := range m`. -/
def valuesA (m : List (String × α)) : List α := m.map Prod.snd

/-- The keys of the map. -/
def keysA (m : List (String × α)) : List String := m.map Prod.fst

/-- Well-formedness of the association-list model of a Go map whose values
determine their own key: keys are unique and each entry is stored under the
key derived from its value.  Every map built by the monitor code satisfies
this. -/
def wfMap (keyOf : α → String) (m : List (String × α)) : Prop :=
  (keysA m).Nodup ∧ ∀ kv ∈ m, keyOf kv.2 = kv.1

/-! ### Data model (`internal/model/graph.go`) -/

/-- `model.FunctionEntity`. -/
structure FunctionEntity where
  name : String
  filePath : String
  startLine : Int
  endLine : Int
  signature : String
  isAsync : Bool
  isExport : Bool
deriving DecidableEq

/-- `model.ImportEntity`. -/
structure ImportEntity where
  module : String
  filePath : String
  importedNames : List String
  isDefault : Bool
  isNamespace : Bool
deriving DecidableEq

/-- `model.VariableEntity` (`Type` field renamed `ty`: Lean keyword). -/
structure VariableEntity where
  name : String
  filePath : String
  ty : String
  isConst : Bool
  isLet : Bool
  startLine : Int
deriving DecidableEq

/-- `model.TypeEntity`. -/
structure TypeEntity where
  name : String
  filePath : String
  kind : String
  definition : String
  isExport : Bool
deriving DecidableEq

/-- `model.InterfaceEntity`. -/
structure InterfaceEntity where
  name : String
  filePath : String
  isExport : Bool
  properties : List String
deriving DecidableEq

/-- `model.ClassEntity`. -/
structure ClassEntity where
  name : String
  filePath : String
  startLine : Int
  endLine : Int
  isExport : Bool
  isAbstract : Bool
  methods : List String
deriving DecidableEq

/-- `model.ConstantEntity`. -/
structure ConstantEntity where
  name : String
  filePath : String
  value : String
deriving DecidableEq

/-- `model.JSXElementEntity`. -/
structure JSXElementEntity where
  tagName : String
  filePath : String
  containingComponent : String
  props : List String
  line : Int
  isCustomComponent : Bool
deriving DecidableEq

/-- `model.CSSRuleEntity`. -/
structure CSSRuleEntity where
  selector : String
  ruleType : String
  filePath : String
  line : Int
  propertyName : String
  value : String
deriving DecidableEq

/-- `model.FunctionCallEntity`. -/
structure FunctionCallEntity where
  callerFile : String
  callerFunc : String
  calledFunc : String
  callLocation : Int
  callContext : String
  resolvedTarget : String
  targetFile : String
deriving DecidableEq

/-- `model.TypeUsageEntity`. -/
structure TypeUsageEntity where
  usingFile : String
  usingEntity : String
  usedType : String
  usageContext : String
  usageLocation : Int
deriving DecidableEq

/-- `model.ExtendsEntity`. -/
structure ExtendsEntity where
  childName : String
  parentName : String
  filePath : String
deriving DecidableEq

/-- `model.ImplementsEntity`. -/
structure ImplementsEntity where
  className : String
  interfaceName : String
  filePath : String
deriving DecidableEq

/-- `model.ReferenceEntity`. -/
structure ReferenceEntity where
  sourceFile : String
  sourceEntity : String
  targetEntity : String
  refType : String
  line : Int
deriving DecidableEq

/-- `driver.ParsedFile` (the `Extends` and `Variables` fields are renamed
`extendsRels` and `vars`: both clash with Lean syntax). -/
structure ParsedFile where
  filePath : String
  language : String
  funcs : List FunctionEntity := []
  imports : List ImportEntity := []
  vars : List VariableEntity := []
  types : List TypeEntity := []
  interfaces : List InterfaceEntity := []
  classes : List ClassEntity := []
  constants : List ConstantEntity := []
  jsxElements : List JSXElementEntity := []
  cssRules : List CSSRuleEntity := []
  functionCalls : List FunctionCallEntity := []
  typeUsages : List TypeUsageEntity := []
  extendsRels : List ExtendsEntity := []
  implements : List ImplementsEntity := []
  references : List ReferenceEntity := []
deriving DecidableEq

/-- Total number of entities and relationships carried by a parsed file,
summed over every collection of `driver.ParsedFile`. -/
def ParsedFile.totalEntities (pf : ParsedFile) : Nat :=
  pf.funcs.length + pf.imports.length + pf.vars.length + pf.types.length +
  pf.interfaces.length + pf.classes.length + pf.constants.length +
  pf.jsxElements.length + pf.cssRules.length + pf.functionCalls.length +
  pf.typeUsages.length + pf.extendsRels.length + pf.implements.length +
  pf.references.length

/-! ### File tracker (`internal/monitor/file_tracker.go`) -/

/-- `monitor.FileState`: one fingerprint record. -/
structure FileState where
  path : String
  hash : String
  modified : Int
deriving DecidableEq

/-- An I/O failure (stat or read). -/
structure IOErr where
  msg : String
deriving DecidableEq

/-- What the filesystem holds at a path: the MD5 digest of the file's bytes
(`calculateHash` hashes the whole body, so equal bytes ⇔ equal digest) and
the mtime in Unix seconds (`info.ModTime().Unix()`). -/
structure FileOnDisk where
  hash : String
  mtime : Int
deriving DecidableEq

/-- The filesystem as seen through `os.Stat`/`ioutil.ReadFile`: `none` means
the file does not exist (stat fails). -/
def Disk := String → Option FileOnDisk

/-- `FileTracker.HasChanged`: stat the file (error when missing), hash it,
then compare with the stored record; a missing record, or a differing hash
or mtime, reports a change. -/
def FileTracker.HasChanged (disk : Disk) (states : List (String × FileState))
    (path : String) : Except IOErr Bool :=
  match disk path with
  | none => .error { msg := "stat failed" }
  | some f =>
      match lookupA states path with
      | none => .ok true
      | some oldState => .ok (oldState.hash != f.hash || oldState.modified != f.mtime)

/-- `FileTracker.UpdateState`: stat and hash the file, then commit the new
fingerprint record. -/
def FileTracker.UpdateState (disk : Disk) (states : List (String × FileState))
    (path : String) : Except IOErr (List (String × FileState)) :=
  match disk path with
  | none => .error { msg := "stat failed" }
  | some f => .ok (insertA states path { path := path, hash := f.hash, modified := f.mtime })

/-- `FileTracker.RemoveState`: delete the record (idempotent). -/
def FileTracker.RemoveState (states : List (String × FileState)) (path : String) :
    List (String × FileState) :=
  eraseA states path

/-! ### Diff analyzer (`internal/monitor/diff_analyzer.go`) -/

/-- `monitor.CachedParse`. `hash` is the `Hash` field, left `""` by
`AnalyzeChanges` when it caches a parse. -/
structure CachedParse where
  parsedFile : ParsedFile
  hash : String
deriving DecidableEq

/-- `monitor.EntityChanges`: exactly the collections the source struct
declares.  Note that it has no fields at all for variables, constants,
JSX elements, CSS rules, type usages, extends, implements or references. -/
structure EntityChanges where
  filePath : String
  addedFunctions : List FunctionEntity := []
  modifiedFunctions : List FunctionEntity := []
  removedFunctions : List FunctionEntity := []
  addedClasses : List ClassEntity := []
  modifiedClasses : List ClassEntity := []
  removedClasses : List ClassEntity := []
  addedInterfaces : List InterfaceEntity := []
  modifiedInterfaces : List InterfaceEntity := []
  removedInterfaces : List InterfaceEntity := []
  addedTypes : List TypeEntity := []
  modifiedTypes : List TypeEntity := []
  removedTypes : List TypeEntity := []
  addedImports : List ImportEntity := []
  removedImports : List ImportEntity := []
  addedFunctionCalls : List FunctionCallEntity := []
  removedFunctionCalls : List FunctionCallEntity := []
deriving DecidableEq

/-- Total number of entities and relationships carried anywhere in an
`EntityChanges` value, summed over every list the source struct declares. -/
def EntityChanges.totalEntities (c : EntityChanges) : Nat :=
  c.addedFunctions.length + c.modifiedFunctions.length + c.removedFunctions.length +
  c.addedClasses.length + c.modifiedClasses.length + c.removedClasses.length +
  c.addedInterfaces.length + c.modifiedInterfaces.length + c.removedInterfaces.length +
  c.addedTypes.length + c.modifiedTypes.length + c.removedTypes.length +
  c.addedImports.length + c.removedImports.length +
  c.addedFunctionCalls.length + c.removedFunctionCalls.length

/-- `monitor.entityDiff[T]`. -/
structure EntityDiff (T : Type) where
  added : List T := []
  modified : List T := []
  removed : List T := []

/-- `entityDiff.hasChanges`. -/
def EntityDiff.hasChangesB {T : Type} (ed : EntityDiff T) : Bool :=
  !ed.added.isEmpty || !ed.modified.isEmpty || !ed.removed.isEmpty

/-- `DiffAnalyzer.functionsEqual`: structural equality on start line, end
line, signature, async flag and export flag. -/
def functionsEqual (f1 f2 : FunctionEntity) : Bool :=
  f1.startLine == f2.startLine &&
  f1.endLine == f2.endLine &&
  f1.signature == f2.signature &&
  f1.isAsync == f2.isAsync &&
  f1.isExport == f2.isExport

/-- `DiffAnalyzer.classesEqual`: structural equality on start line, end line,
export flag, abstract flag and the method-name list (`reflect.DeepEqual`). -/
def classesEqual (c1 c2 : ClassEntity) : Bool :=
  c1.startLine == c2.startLine &&
  c1.endLine == c2.endLine &&
  c1.isExport == c2.isExport &&
  c1.isAbstract == c2.isAbstract &&
  c1.methods == c2.methods

/-- The `oldMap`/`newMap` built by the analyze functions: a Go map keyed by
the entity's name, filled by ranging over the slice (last entry wins). -/
def buildMapG {T : Type} (keyOf : T → String) (l : List T) : List (String × T) :=
  l.foldl (fun m v => insertA m (keyOf v) v) []

/-- Body of the first range loop of the analyze functions: a new entity
whose key is absent from the old map is added; one present under the same
key is modified exactly when the kind's equality predicate rejects it. -/
def diffNewStep {T : Type} (oldMap : List (String × T)) (eqFn : T → T → Bool)
    (d : EntityDiff T) (kv : String × T) : EntityDiff T :=
  match lookupA oldMap kv.1 with
  | some oldV => if eqFn oldV kv.2 then d else { d with modified := d.modified ++ [kv.2] }
  | none => { d with added := d.added ++ [kv.2] }

/-- Body of the second range loop: an old entity whose key is absent from
the new map was removed. -/
def diffOldStep {T : Type} (newMap : List (String × T))
    (d : EntityDiff T) (kv : String × T) : EntityDiff T :=
  match lookupA newMap kv.1 with
  | some _ => d
  | none => { d with removed := d.removed ++ [kv.2] }

/-- Common shape of `DiffAnalyzer.analyzeFunctionChanges` and
`DiffAnalyzer.analyzeClassChanges` (the two Go functions are textually
identical up to the entity type and equality predicate): build key maps from
both slices, range over the new map classifying added/modified, then range
over the old map collecting removed. -/
def analyzeEntity {T : Type} (keyOf : T → String) (eqFn : T → T → Bool)
    (oldL newL : List T) : EntityDiff T :=
  let oldMap := buildMapG keyOf oldL
  let newMap := buildMapG keyOf newL
  oldMap.foldl (diffOldStep newMap) (newMap.foldl (diffNewStep oldMap eqFn) {})

/-- Whether the first range loop classifies a new-map entry as modified:
its key is present in the old map and the equality predicate rejects the
old/new pair. -/
def isModB {T : Type} (oldMap : List (String × T)) (eqFn : T → T → Bool)
    (kv : String × T) : Bool :=
  match lookupA oldMap kv.1 with
  | some oldV => !(eqFn oldV kv.2)
  | none => false

/-- Whether an entry's key is absent from the other parse's map (added when
checked against the old map, removed when checked against the new map). -/
def keyAbsentB {T : Type} (m : List (String × T)) (kv : String × T) : Bool :=
  (lookupA m kv.1).isNone

/-- `DiffAnalyzer.analyzeFunctionChanges`. -/
def analyzeFunctionChanges (oldFuncs newFuncs : List FunctionEntity) :
    EntityDiff FunctionEntity :=
  analyzeEntity (·.name) functionsEqual oldFuncs newFuncs

/-- `DiffAnalyzer.analyzeClassChanges`. -/
def analyzeClassChanges (oldClasses newClasses : List ClassEntity) :
    EntityDiff ClassEntity :=
  analyzeEntity (·.name) classesEqual oldClasses newClasses

/-- `DiffAnalyzer.AnalyzeChanges`: on a first observation every collection
the `EntityChanges` struct can carry is marked added and the parse is cached;
otherwise functions and classes are diffed (the source only implements those
two kinds; the rest is a comment) and the cache is updated iff changes were
found.  Returns the changes, the `hasChanges` flag and the updated cache. -/
def AnalyzeChanges (cache : List (String × CachedParse)) (filePath : String)
    (newParse : ParsedFile) : EntityChanges × Bool × List (String × CachedParse) :=
  let changes0 : EntityChanges := { filePath := filePath }
  match lookupA cache filePath with
  | none =>
      let changes := { changes0 with
        addedFunctions := newParse.funcs
        addedClasses := newParse.classes
        addedInterfaces := newParse.interfaces
        addedTypes := newParse.types
        addedImports := newParse.imports
        addedFunctionCalls := newParse.functionCalls }
      (changes, true, insertA cache filePath { parsedFile := newParse, hash := "" })
  | some cached =>
      let oldParse := cached.parsedFile
      let funcChanges := analyzeFunctionChanges oldParse.funcs newParse.funcs
      let classChanges := analyzeClassChanges oldParse.classes newParse.classes
      let changes1 := if funcChanges.hasChangesB then
          { changes0 with
            addedFunctions := funcChanges.added
            modifiedFunctions := funcChanges.modified
            removedFunctions := funcChanges.removed }
        else changes0
      let changes2 := if classChanges.hasChangesB then
          { changes1 with
            addedClasses := classChanges.added
            modifiedClasses := classChanges.modified
            removedClasses := classChanges.removed }
        else changes1
      let hasChanges := funcChanges.hasChangesB || classChanges.hasChangesB
      let cache' := if hasChanges then
          insertA cache filePath { parsedFile := newParse, hash := "" }
        else cache
      (changes2, hasChanges, cache')

/-- `DiffAnalyzer.RemoveFromCache` (defined in the source but never called). -/
def RemoveFromCache (cache : List (String × CachedParse)) (filePath : String) :
    List (String × CachedParse) :=
  eraseA cache filePath

/-! ### Batch processor (`internal/monitor/batch_processor.go`, the
channel-based variant integrated in the enhanced monitor) -/

/-- `monitor.ChangeType`. -/
inductive ChangeType where
  | create
  | modify
  | delete
deriving DecidableEq

/-- `monitor.FileChange` (`Type` field renamed `ctype`: Lean keyword);
timestamps are Unix seconds, retries a natural number. -/
structure FileChange where
  path : String
  ctype : ChangeType
  timestamp : Int
  retries : Nat
deriving DecidableEq

/-- `monitor.BatchMetrics` counters (the float average and the duration are
elided; they are derived data the claims do not touch). -/
structure BatchMetrics where
  totalBatches : Nat := 0
  totalChanges : Nat := 0
  errors : Nat := 0
deriving DecidableEq

/-- The batch processor's own state: the pending-changes map and its
metrics.  The flush-trigger channel only wakes the run loop and carries no
data, so it does not appear in the state. -/
structure BPState where
  pendingChanges : List (String × FileChange) := []
  metrics : BatchMetrics := {}
deriving DecidableEq

/-- `BatchProcessor.Add`: store or overwrite `pending[change.Path]` (latest
change wins).  Reaching the size threshold only signals the flush channel. -/
def BatchProcessor.Add (bp : BPState) (change : FileChange) : BPState :=
  { bp with pendingChanges := insertA bp.pendingChanges change.path change }

/-- `BatchProcessor.updateMetrics`. -/
def updateBatchMetrics (bm : BatchMetrics) (batchSize : Nat) (isError : Bool) :
    BatchMetrics :=
  { bm with
    totalBatches := bm.totalBatches + 1
    totalChanges := bm.totalChanges + batchSize
    errors := bm.errors + (if isError then 1 else 0) }

/-- Loop body of `handleFailedBatch`: increment the event's retry count;
below 3, write it back into the pending map unconditionally
(`bp.pendingChanges[change.Path] = change`), otherwise log and drop it. -/
def retryStep (m : List (String × FileChange)) (c : FileChange) :
    List (String × FileChange) :=
  let c' := { c with retries := c.retries + 1 }
  if c'.retries < 3 then insertA m c'.path c' else m

/-- `BatchProcessor.handleFailedBatch`: apply `retryStep` to every event of
the failed batch. -/
def handleFailedBatch (bp : BPState) (changes : List FileChange) : BPState :=
  { bp with pendingChanges := changes.foldl retryStep bp.pendingChanges }

/-- `BatchProcessor.flush` in the run where `processFunc` returns an error:
the pending map is swapped out and reset, the batch is processed (failing),
the failed batch is re-enqueued via `handleFailedBatch` and the metrics are
bumped with the error flag.  The engine state the failing `processFunc`
touched is irrelevant to the coalescer's own state modelled here. -/
def BatchProcessor.flushErr (bp : BPState) : BPState :=
  if bp.pendingChanges.isEmpty then bp
  else
    let changes := valuesA bp.pendingChanges
    let bp1 := { bp with pendingChanges := ([] : List (String × FileChange)) }
    let bp2 := handleFailedBatch bp1 changes
    { bp2 with metrics := updateBatchMetrics bp2.metrics changes.length true }

/-! ### Enhanced monitor (`internal/monitor/enhanced_monitor.go`) and
base monitor (`internal/monitor/monitor.go`) -/

/-- A parser failure. -/
structure ParseError where
  msg : String
deriving DecidableEq

/-- An error value returned by a `ProcessBatchFunc`. -/
structure BatchError where
  msg : String
deriving DecidableEq

/-- `monitor.MetricsCollector` counters (timing windows and `lastChange` are
wall-clock data and are elided). -/
structure Metrics where
  filesProcessed : Nat := 0
  changesDetected : Nat := 0
  errors : Nat := 0
deriving DecidableEq

/-- One operation issued to the graph sink.  Of the sixteen upserts the
`GraphClient` interface declares, the monitor's code paths under study only
ever issue function and import upserts (`updateEntities` loops over `Funcs`
and `Imports` with the rest left as a comment; `applyChangesToNeo4j`/`AGE`/
`Oracle` loop over added and modified functions with the rest left as a
comment), so those are the operations the log can record. -/
inductive SinkOp where
  | upsertFunction (fn : FunctionEntity)
  | upsertImport (imp : ImportEntity)
deriving DecidableEq

/-- The mutable state of one `EnhancedMonitor` (with its embedded base
monitor): the pause flag, running flag, the file tracker's fingerprint map,
the diff analyzer's parse cache, the metrics counters, the batch processor
state and the log of operations issued to the graph sink. -/
structure EMState where
  isPaused : Bool := false
  isRunning : Bool := true
  tracker : List (String × FileState) := []
  cache : List (String × CachedParse) := []
  metrics : Metrics := {}
  bp : BPState := {}
  sinkOps : List SinkOp := []
deriving DecidableEq

/-- The engine's environment: the filesystem, the external parser, the
path-rebasing function (`filepath.Rel` with its fallback), the construction
flags, the current time and whether the final state save will fail. -/
structure Env where
  disk : Disk
  parse : String → Except ParseError ParsedFile
  rel : String → String
  now : Int
  batchingEnabled : Bool
  diffEnabled : Bool
  saveErr : Option IOErr

/-- `MetricsCollector.RecordFileProcessed` (counter part). -/
def recordFileProcessed (s : EMState) : EMState :=
  { s with metrics := { s.metrics with filesProcessed := s.metrics.filesProcessed + 1 } }

/-- `MetricsCollector.RecordChange`. -/
def recordChange (s : EMState) : EMState :=
  { s with metrics := { s.metrics with changesDetected := s.metrics.changesDetected + 1 } }

/-- `MetricsCollector.RecordError`. -/
def recordError (s : EMState) : EMState :=
  { s with metrics := { s.metrics with errors := s.metrics.errors + 1 } }

/-- `EnhancedMonitor.applyEntityChanges`: the type switch dispatches to
`applyChangesToNeo4j`, `applyChangesToAGE` or `applyChangesToOracle`, and all
three upsert the added functions then the modified functions (removals are
only logged, other entity kinds are a comment). -/
def applyEntityChanges (s : EMState) (changes : EntityChanges) : EMState :=
  { s with sinkOps := s.sinkOps ++
      (changes.addedFunctions ++ changes.modifiedFunctions).map SinkOp.upsertFunction }

/-- `Monitor.updateEntities` (reached from
`EnhancedMonitor.updateAllEntities`): upsert every function, then
every import (the other entity kinds are a comment in the source). -/
def updateEntities (s : EMState) (pf : ParsedFile) : EMState :=
  { s with sinkOps := s.sinkOps ++
      pf.funcs.map SinkOp.upsertFunction ++ pf.imports.map SinkOp.upsertImport }

/-- The trailing `em.fileTracker.UpdateState(filePath)` call of
`processFileImmediate`: commit the fingerprint; a failure is only logged. -/
def commitTracker (env : Env) (s : EMState) (filePath : String) : EMState :=
  match FileTracker.UpdateState env.disk s.tracker filePath with
  | .error _ => s
  | .ok tr => { s with tracker := tr }

/-- `EnhancedMonitor.processFileImmediate`: change gate via the tracker
(an I/O error is logged and counted), change metric, parse (a failure is
logged and counted), path rebase, then either the diff path (return on an
empty diff before the fingerprint commit, otherwise apply the delta) or the
full-file path, and finally the fingerprint commit. -/
def processFileImmediate (env : Env) (s : EMState) (filePath : String) : EMState :=
  match FileTracker.HasChanged env.disk s.tracker filePath with
  | .error _ => recordError s
  | .ok false => s
  | .ok true =>
    let s1 := recordChange s
    match env.parse filePath with
    | .error _ => recordError s1
    | .ok pf0 =>
      let pf := { pf0 with filePath := env.rel filePath }
      if env.diffEnabled then
        match AnalyzeChanges s1.cache filePath pf with
        | (changes, hasChanges, cache') =>
          if !hasChanges then
            -- "No entity changes detected": return before the tracker update
            { s1 with cache := cache' }
          else
            commitTracker env (applyEntityChanges { s1 with cache := cache' } changes) filePath
      else
        commitTracker env (updateEntities s1 pf) filePath

/-- `EnhancedMonitor.processFile`: the pause gate drops the event silently;
with batching enabled the event is coalesced into the batch processor;
otherwise the file is processed immediately and the processed counter is
bumped. -/
def EnhancedMonitor.processFile (env : Env) (s : EMState) (filePath : String) : EMState :=
  if s.isPaused then s
  else if env.batchingEnabled then
    let change : FileChange :=
      { path := filePath, ctype := .modify, timestamp := env.now, retries := 0 }
    { s with bp := BatchProcessor.Add s.bp change }
  else
    recordFileProcessed (processFileImmediate env s filePath)

/-- `Monitor.handleRemoval`: removal from the graph sink and from the
embedding store are unimplemented (only logged); the fingerprint record is
removed from the file tracker.  The diff analyzer's cache is not touched
(the base monitor has no access to it and `RemoveFromCache` has no caller). -/
def handleRemoval (s : EMState) (filePath : String) : EMState :=
  { s with tracker := FileTracker.RemoveState s.tracker filePath }

/-- Loop body of `EnhancedMonitor.processBatch`: a create or modify change
goes through `processFileImmediate`, a delete through `handleRemoval`. -/
def batchStep (env : Env) (s : EMState) (c : FileChange) : EMState :=
  match c.ctype with
  | .create | .modify => processFileImmediate env s c.path
  | .delete => handleRemoval s c.path

/-- `EnhancedMonitor.processBatch`: replay each change of the batch through
`processFileImmediate` or `handleRemoval`.  The Go function ends in
`return nil`; the error it reports to the batch processor is modelled
separately by `processBatchF`. -/
def processBatch (env : Env) (s : EMState) (changes : List FileChange) : EMState :=
  changes.foldl (batchStep env) s

/-- `EnhancedMonitor.processBatch` as a `ProcessBatchFunc` value, the way
`NewBatchProcessor` receives it: the new state together with the returned
error, which is always `nil` (`none`). -/
def processBatchF (env : Env) (s : EMState) (changes : List FileChange) :
    EMState × Option BatchError :=
  (processBatch env s changes, none)

/-- `BatchProcessor.flush` with its `processFunc` closure over the engine
state: swap out and reset the pending map, run the process function on the
batch, and on error re-enqueue via `handleFailedBatch`; update the metrics
with the batch size and the error flag either way. -/
def flushWith (proc : EMState → List FileChange → EMState × Option BatchError)
    (s : EMState) : EMState :=
  if s.bp.pendingChanges.isEmpty then s
  else
    let changes := valuesA s.bp.pendingChanges
    let s1 := { s with bp := { s.bp with pendingChanges := [] } }
    match proc s1 changes with
    | (s2, some _) =>
        let s3 := { s2 with bp := handleFailedBatch s2.bp changes }
        { s3 with bp := { s3.bp with
            metrics := updateBatchMetrics s3.bp.metrics changes.length true } }
    | (s2, none) =>
        { s2 with bp := { s2.bp with
            metrics := updateBatchMetrics s2.bp.metrics changes.length false } }

/-- The error a `Monitor.Stop` call can report. -/
inductive StopError where
  | saveFailed (e : IOErr)
  | sinkCloseFailed (e : IOErr)
deriving DecidableEq

/-- Whether a stop error is a graph-sink close failure. -/
def StopError.isSinkClose : StopError → Bool
  | .sinkCloseFailed _ => true
  | _ => false

/-- `Monitor.Stop`: clear the running flag, close the stop channel and the
watcher, wait for the goroutines (none of which touches the modelled state),
save the final tracker state and return its error if it fails.  The graph
client is never closed here. -/
def Monitor.Stop (env : Env) (s : EMState) : EMState × Option StopError :=
  let s1 := { s with isRunning := false }
  match env.saveErr with
  | some e => (s1, some (.saveFailed e))
  | none => (s1, none)

/-! ### Specification vocabulary and concrete sample inputs -/

/-- The latest change event for path `p` in a sequence of events added to
the batch processor, if any — the event the coalescing guarantee says the
flushed batch must carry for `p`. -/
def lastFor (p : String) : List FileChange → Option FileChange
  | [] => none
  | e :: rest =>
      match lastFor p rest with
      | some e' => some e'
      | none => if e.path = p then some e else none

/-- An early change event for `a.ts`. -/
def evA1 : FileChange := { path := "a.ts", ctype := .modify, timestamp := 1, retries := 0 }

/-- A later change event for `a.ts`. -/
def evA2 : FileChange := { path := "a.ts", ctype := .modify, timestamp := 2, retries := 0 }

/-- A fresh event for `a.ts`, added while a batch holding `staleEv` fails. -/
def freshEv : FileChange := { path := "a.ts", ctype := .modify, timestamp := 10, retries := 0 }

/-- A stale event for `a.ts` sitting in a batch whose processing fails. -/
def staleEv : FileChange := { path := "a.ts", ctype := .modify, timestamp := 5, retries := 0 }

/-- Batch-processor state whose pending map holds the fresh event. -/
def bpFresh : BPState := { pendingChanges := [("a.ts", freshEv)] }

/-- Batch-processor state whose pending map holds one never-retried event. -/
def bpOne : BPState := { pendingChanges := [("a.ts", staleEv)] }

/-- A parse of `a.ts` with no entities. -/
def pfEmpty : ParsedFile := { filePath := "a.ts", language := "typescript" }

/-- The fingerprint record of `/t/a.ts` after its first processing. -/
def recA : FileState := { path := "/t/a.ts", hash := "h", modified := 1 }

/-- Filesystem after `touch a.ts`: same bytes (same digest), bumped mtime. -/
def diskTouch : Disk := fun p =>
  if p = "/t/a.ts" then some { hash := "h", mtime := 2 } else none

/-- Filesystem with `/t/a.ts` unchanged in bytes and mtime. -/
def diskSame : Disk := fun p =>
  if p = "/t/a.ts" then some { hash := "h", mtime := 1 } else none

/-- Filesystem where every file is missing. -/
def diskGone : Disk := fun _ => none

/-- A diff-mode, non-batching engine environment over `diskSame`. -/
def envBase : Env :=
  { disk := diskSame, parse := fun _ => .ok pfEmpty, rel := fun _ => "a.ts",
    now := 0, batchingEnabled := false, diffEnabled := true, saveErr := none }

/-- `envBase` after a `touch` of `a.ts`. -/
def envTouch : Env := { envBase with disk := diskTouch }

/-- `envBase` after `a.ts` was deleted from disk. -/
def envGone : Env := { envBase with disk := diskGone }

/-- `envBase` whose final fingerprint save will fail. -/
def envSaveFail : Env := { envBase with saveErr := some { msg := "disk full" } }

/-- Engine state after `/t/a.ts` was processed once: tracked fingerprint and
cached parse present, all counters zero. -/
def sA : EMState :=
  { tracker := [("/t/a.ts", recA)],
    cache := [("/t/a.ts", { parsedFile := pfEmpty, hash := "" })] }

/-- A parse of `v.ts` holding exactly one entity, a variable. -/
def pfVar : ParsedFile :=
  { filePath := "v.ts", language := "typescript",
    vars := [{ name := "x", filePath := "v.ts", ty := "number",
               isConst := false, isLet := true, startLine := 1 }] }

/-- A function as first parsed. -/
def fOld : FunctionEntity :=
  { name := "f", filePath := "a.ts", startLine := 1, endLine := 3,
    signature := "f()", isAsync := false, isExport := true }

/-- The same function moved to lines 5–7 (signature unchanged). -/
def fNew : FunctionEntity := { fOld with startLine := 5, endLine := 7 }

/-- A class whose structural fields are unchanged between two parses. -/
def cSame : ClassEntity :=
  { name := "C", filePath := "a.ts", startLine := 1, endLine := 9,
    isExport := true, isAbstract := false, methods := ["m"] }

/-! ### Lemmas about the association-list model -/

theorem lookupA_insertA_self (m : List (String × α)) (k : String) (v : α) :
    lookupA (insertA m k v) k = some v := by
  induction m with
  | nil => simp [insertA, lookupA]
  | cons kv rest ih =>
      obtain ⟨k', w⟩ := kv
      by_cases h : k' = k
      · simp [insertA, h, lookupA]
      · simp [insertA, h, lookupA, ih]

theorem lookupA_insertA_ne (m : List (String × α)) (k k' : String) (v : α)
    (h : k' ≠ k) : lookupA (insertA m k v) k' = lookupA m k' := by
  have hne : ¬(k = k') := fun hh => h hh.symm
  induction m with
  | nil => simp [insertA, lookupA, hne]
  | cons kv rest ih =>
      obtain ⟨k0, w⟩ := kv
      by_cases h0 : k0 = k
      · subst h0
        simp [insertA, lookupA, hne]
      · simp only [insertA, if_neg h0]
        by_cases h1 : k0 = k'
        · simp [lookupA, h1]
        · simp [lookupA, h1, ih]

theorem lookupA_eraseA_self (m : List (String × α)) (k : String) :
    lookupA (eraseA m k) k = none := by
  induction m with
  | nil => simp [eraseA, lookupA]
  | cons kv rest ih =>
      obtain ⟨k0, w⟩ := kv
      by_cases h0 : k0 = k
      · simp [eraseA, h0, ih]
      · simp [eraseA, h0, lookupA, ih]

theorem mem_of_lookupA_eq (m : List (String × α)) (k : String) (v : α)
    (h : lookupA m k = some v) : (k, v) ∈ m := by
  induction m with
  | nil => simp [lookupA] at h
  | cons kv rest ih =>
      obtain ⟨k0, w⟩ := kv
      by_cases h0 : k0 = k
      · subst h0
        simp [lookupA] at h
        simp [h]
      · simp [lookupA, h0] at h
        exact List.mem_cons_of_mem _ (ih h)

theorem lookupA_of_mem (m : List (String × α)) (k : String) (v : α)
    (nd : (keysA m).Nodup) (h : (k, v) ∈ m) : lookupA m k = some v := by
  induction m with
  | nil => simp at h
  | cons kv rest ih =>
      obtain ⟨k0, w⟩ := kv
      simp only [keysA, List.map_cons, List.nodup_cons] at nd
      rcases List.mem_cons.mp h with h1 | h1
      · obtain ⟨hk, hv⟩ := Prod.mk.injEq .. ▸ h1
        simp [lookupA, hk.symm, hv]
      · by_cases h0 : k0 = k
        · subst h0
          exact absurd (List.mem_map.mpr ⟨(k0, v), h1, rfl⟩) nd.1
        · simpa [lookupA, h0] using ih nd.2 h1

theorem mem_keysA_insertA (m : List (String × α)) (k x : String) (v : α)
    (h : x ∈ keysA (insertA m k v)) : x = k ∨ x ∈ keysA m := by
  induction m with
  | nil => simpa [insertA, keysA] using h
  | cons kv rest ih =>
      obtain ⟨k0, w⟩ := kv
      by_cases h0 : k0 = k
      · subst h0
        simpa [insertA, keysA] using h
      · simp only [insertA, if_neg h0, keysA, List.map_cons, List.mem_cons] at h ⊢
        rcases h with h | h
        · exact Or.inr (Or.inl h)
        · rcases ih h with h | h
          · exact Or.inl h
          · exact Or.inr (Or.inr h)

theorem insertA_eq_of_head (rest : List (String × α)) (k : String) (v w : α) :
    insertA ((k, w) :: rest) k v = (k, v) :: rest := by
  simp [insertA]

theorem insertA_eq_of_head_ne (rest : List (String × α)) (k0 k : String) (v w : α)
    (h : k0 ≠ k) : insertA ((k0, w) :: rest) k v = (k0, w) :: insertA rest k v := by
  simp [insertA, h]

theorem mem_insertA (m : List (String × α)) (k : String) (v : α) (kv : String × α)
    (h : kv ∈ insertA m k v) : kv = (k, v) ∨ kv ∈ m := by
  induction m with
  | nil => simpa [insertA] using h
  | cons kv0 rest ih =>
      obtain ⟨k0, w⟩ := kv0
      by_cases h0 : k0 = k
      · subst h0
        rw [insertA_eq_of_head] at h
        rcases List.mem_cons.mp h with h1 | h1
        · exact Or.inl h1
        · exact Or.inr (List.mem_cons_of_mem _ h1)
      · rw [insertA_eq_of_head_ne rest k0 k v w h0] at h
        rcases List.mem_cons.mp h with h1 | h1
        · exact Or.inr (h1 ▸ List.mem_cons_self _ _)
        · rcases ih h1 with h2 | h2
          · exact Or.inl h2
          · exact Or.inr (List.mem_cons_of_mem _ h2)

theorem nodup_keysA_insertA (m : List (String × α)) (k : String) (v : α)
    (nd : (keysA m).Nodup) : (keysA (insertA m k v)).Nodup := by
  induction m with
  | nil => simp [insertA, keysA]
  | cons kv rest ih =>
      obtain ⟨k0, w⟩ := kv
      simp only [keysA, List.map_cons, List.nodup_cons] at nd
      by_cases h0 : k0 = k
      · subst h0
        rw [insertA_eq_of_head]
        simp only [keysA, List.map_cons, List.nodup_cons]
        exact nd
      · rw [insertA_eq_of_head_ne rest k0 k v w h0]
        simp only [keysA, List.map_cons, List.nodup_cons]
        refine ⟨fun hx => ?_, ih nd.2⟩
        rcases mem_keysA_insertA rest k k0 v hx with h | h
        · exact h0 h
        · exact nd.1 h

theorem wfMap_tail {keyOf : α → String} (k0 : String) (w : α)
    (rest : List (String × α)) (hwf : wfMap keyOf ((k0, w) :: rest)) :
    wfMap keyOf rest := by
  refine ⟨?_, fun kv' hkv' => hwf.2 kv' (List.mem_cons_of_mem _ hkv')⟩
  have := hwf.1
  simp only [keysA, List.map_cons, List.nodup_cons] at this
  exact this.2

theorem wfMap_insertA {keyOf : α → String} (m : List (String × α)) (v : α)
    (hwf : wfMap keyOf m) : wfMap keyOf (insertA m (keyOf v) v) := by
  refine ⟨nodup_keysA_insertA m (keyOf v) v hwf.1, fun kv hkv => ?_⟩
  rcases mem_insertA m (keyOf v) v kv hkv with h | h
  · simp [h]
  · exact hwf.2 kv h

theorem filter_valuesA (keyOf : α → String) (m : List (String × α)) (p : String)
    (hwf : wfMap keyOf m) :
    (valuesA m).filter (fun v => decide (keyOf v = p)) = (lookupA m p).toList := by
  induction m with
  | nil => simp [valuesA, lookupA]
  | cons kv rest ih =>
      obtain ⟨k0, w⟩ := kv
      have hk0 : keyOf w = k0 := hwf.2 (k0, w) (List.mem_cons_self _ _)
      have hwfrest : wfMap keyOf rest := wfMap_tail k0 w rest hwf
      have hcons : valuesA ((k0, w) :: rest) = w :: valuesA rest := rfl
      by_cases h0 : k0 = p
      · subst h0
        have hnot : k0 ∉ keysA rest := by
          have := hwf.1
          simp only [keysA, List.map_cons, List.nodup_cons] at this
          exact this.1
        have hz : (valuesA rest).filter (fun v => decide (keyOf v = k0)) = [] := by
          rw [ih hwfrest]
          cases hlk : lookupA rest k0 with
          | none => simp
          | some u =>
              exact absurd
                (List.mem_map.mpr ⟨(k0, u), mem_of_lookupA_eq rest k0 u hlk, rfl⟩) hnot
        rw [hcons, List.filter_cons]
        simp [hk0, hz, lookupA]
      · have hw : ¬(keyOf w = p) := by rw [hk0]; exact h0
        rw [hcons, List.filter_cons]
        simp [hw, lookupA, if_neg h0, ih hwfrest]

/-! ### Lemmas about the batch processor -/

theorem lookupA_Add (bp : BPState) (e : FileChange) (p : String) :
    lookupA ((BatchProcessor.Add bp e).pendingChanges) p =
      if e.path = p then some e else lookupA bp.pendingChanges p := by
  by_cases hp : e.path = p
  · subst hp
    simp [BatchProcessor.Add, lookupA_insertA_self]
  · simp [BatchProcessor.Add, hp,
      lookupA_insertA_ne bp.pendingChanges e.path p e (Ne.symm hp)]

theorem lookupA_foldl_Add (evs : List FileChange) (bp : BPState) (p : String) :
    lookupA ((evs.foldl BatchProcessor.Add bp).pendingChanges) p =
      match lastFor p evs with
      | some e => some e
      | none => lookupA bp.pendingChanges p := by
  induction evs generalizing bp with
  | nil => simp [lastFor]
  | cons e rest ih =>
      rw [List.foldl_cons, ih (BatchProcessor.Add bp e)]
      cases hl : lastFor p rest with
      | some e' => simp [lastFor, hl]
      | none =>
          simp only [lastFor, hl, lookupA_Add]
          by_cases hp : e.path = p <;> simp [hp]

theorem lastFor_path (p : String) (evs : List FileChange) (e : FileChange)
    (h : lastFor p evs = some e) : e.path = p := by
  induction evs with
  | nil => simp [lastFor] at h
  | cons e0 rest ih =>
      simp only [lastFor] at h
      cases hl : lastFor p rest with
      | some e' =>
          rw [hl] at h
          exact ih (hl.trans (by simpa using h))
      | none =>
          rw [hl] at h
          by_cases hp : e0.path = p
          · rw [if_pos hp] at h
            cases h
            exact hp
          · rw [if_neg hp] at h
            cases h

theorem wf_Add (bp : BPState) (e : FileChange)
    (hwf : wfMap FileChange.path bp.pendingChanges) :
    wfMap FileChange.path ((BatchProcessor.Add bp e).pendingChanges) :=
  wfMap_insertA bp.pendingChanges e hwf

theorem wf_foldl_Add (evs : List FileChange) (bp : BPState)
    (hwf : wfMap FileChange.path bp.pendingChanges) :
    wfMap FileChange.path ((evs.foldl BatchProcessor.Add bp).pendingChanges) := by
  induction evs generalizing bp with
  | nil => exact hwf
  | cons e rest ih => exact ih (BatchProcessor.Add bp e) (wf_Add bp e hwf)

theorem mem_valuesA_insertA (m : List (String × α)) (k : String) (w v : α)
    (h : v ∈ valuesA (insertA m k w)) : v = w ∨ v ∈ valuesA m := by
  obtain ⟨kv, hkv, hv⟩ := List.mem_map.mp h
  rcases mem_insertA m k w kv hkv with h1 | h1
  · exact Or.inl (by rw [← hv, h1])
  · exact Or.inr (List.mem_map.mpr ⟨kv, h1, hv⟩)

theorem mem_valuesA_foldl_retryStep (changes : List FileChange)
    (m : List (String × FileChange)) (v : FileChange)
    (h : v ∈ valuesA (changes.foldl retryStep m)) :
    v ∈ valuesA m ∨ ∃ c ∈ changes, v = { c with retries := c.retries + 1 } := by
  induction changes generalizing m with
  | nil => exact Or.inl h
  | cons c rest ih =>
      rw [List.foldl_cons] at h
      rcases ih (retryStep m c) h with h1 | h1
      · unfold retryStep at h1
        by_cases hlt : c.retries + 1 < 3
        · rw [if_pos hlt] at h1
          rcases mem_valuesA_insertA m _ _ v h1 with h2 | h2
          · exact Or.inr ⟨c, List.mem_cons_self _ _, h2⟩
          · exact Or.inl h2
        · rw [if_neg hlt] at h1
          exact Or.inl h1
      · obtain ⟨c', hc', hv⟩ := h1
        exact Or.inr ⟨c', List.mem_cons_of_mem _ hc', hv⟩

theorem foldl_retryStep_of_ge2 (changes : List FileChange)
    (m : List (String × FileChange)) (h : ∀ c ∈ changes, 2 ≤ c.retries) :
    changes.foldl retryStep m = m := by
  induction changes generalizing m with
  | nil => rfl
  | cons c rest ih =>
      have hc : ¬(c.retries + 1 < 3) := by
        have := h c (List.mem_cons_self _ _)
        omega
      rw [List.foldl_cons, show retryStep m c = m by simp [retryStep, hc]]
      exact ih m fun c' hc' => h c' (List.mem_cons_of_mem _ hc')

theorem flushErr_retries (bp : BPState) (k : Nat)
    (h : ∀ c ∈ valuesA bp.pendingChanges, k ≤ c.retries) :
    ∀ c ∈ valuesA (BatchProcessor.flushErr bp).pendingChanges, k + 1 ≤ c.retries := by
  intro v hv
  unfold BatchProcessor.flushErr at hv
  by_cases he : bp.pendingChanges.isEmpty
  · rw [if_pos he] at hv
    rw [List.isEmpty_iff.mp he] at hv
    simp [valuesA] at hv
  · rw [if_neg he] at hv
    simp only [handleFailedBatch] at hv
    rcases mem_valuesA_foldl_retryStep _ _ v hv with h1 | h1
    · simp [valuesA] at h1
    · obtain ⟨c, hc, hvc⟩ := h1
      have := h c hc
      rw [hvc]
      show k + 1 ≤ c.retries + 1
      omega

theorem flushErr_empty_of_ge2 (bp : BPState)
    (h : ∀ c ∈ valuesA bp.pendingChanges, 2 ≤ c.retries) :
    (BatchProcessor.flushErr bp).pendingChanges = [] := by
  unfold BatchProcessor.flushErr
  by_cases he : bp.pendingChanges.isEmpty
  · rw [if_pos he]
    exact List.isEmpty_iff.mp he
  · rw [if_neg he]
    simp only [handleFailedBatch]
    exact foldl_retryStep_of_ge2 _ _ h

theorem flushErr_thrice (bp : BPState) :
    (BatchProcessor.flushErr (BatchProcessor.flushErr
      (BatchProcessor.flushErr bp))).pendingChanges = [] := by
  apply flushErr_empty_of_ge2
  have h1 : ∀ c ∈ valuesA (BatchProcessor.flushErr bp).pendingChanges, 1 ≤ c.retries :=
    flushErr_retries bp 0 fun c _ => Nat.zero_le _
  have h2 := flushErr_retries (BatchProcessor.flushErr bp) 1 h1
  simpa using h2

/-! ### Lemmas about the diff analyzer -/

section DifferLemmas

variable {T : Type}

theorem foldl_diffNewStep_modified (oldMap : List (String × T)) (eqFn : T → T → Bool)
    (l : List (String × T)) (d : EntityDiff T) :
    (l.foldl (diffNewStep oldMap eqFn) d).modified
      = d.modified ++ (l.filter (isModB oldMap eqFn)).map Prod.snd := by
  induction l generalizing d with
  | nil => simp
  | cons kv rest ih =>
      rw [List.foldl_cons, ih, List.filter_cons]
      unfold diffNewStep isModB
      cases hl : lookupA oldMap kv.1 with
      | some o =>
          by_cases he : eqFn o kv.2
          · simp [hl, he]
          · simp [hl, he]
      | none => simp [hl]

theorem foldl_diffNewStep_added (oldMap : List (String × T)) (eqFn : T → T → Bool)
    (l : List (String × T)) (d : EntityDiff T) :
    (l.foldl (diffNewStep oldMap eqFn) d).added
      = d.added ++ (l.filter (keyAbsentB oldMap)).map Prod.snd := by
  induction l generalizing d with
  | nil => simp
  | cons kv rest ih =>
      rw [List.foldl_cons, ih, List.filter_cons]
      unfold diffNewStep keyAbsentB
      cases hl : lookupA oldMap kv.1 with
      | some o =>
          by_cases he : eqFn o kv.2
          · simp [hl, he]
          · simp [hl, he]
      | none => simp [hl]

theorem foldl_diffNewStep_removed (oldMap : List (String × T)) (eqFn : T → T → Bool)
    (l : List (String × T)) (d : EntityDiff T) :
    (l.foldl (diffNewStep oldMap eqFn) d).removed = d.removed := by
  induction l generalizing d with
  | nil => rfl
  | cons kv rest ih =>
      rw [List.foldl_cons, ih]
      unfold diffNewStep
      cases hl : lookupA oldMap kv.1 with
      | some o =>
          by_cases he : eqFn o kv.2
          · simp [he]
          · simp [he]
      | none => simp

theorem foldl_diffOldStep_modified (newMap : List (String × T))
    (l : List (String × T)) (d : EntityDiff T) :
    (l.foldl (diffOldStep newMap) d).modified = d.modified := by
  induction l generalizing d with
  | nil => rfl
  | cons kv rest ih =>
      rw [List.foldl_cons, ih]
      unfold diffOldStep
      cases hl : lookupA newMap kv.1 <;> simp

theorem foldl_diffOldStep_added (newMap : List (String × T))
    (l : List (String × T)) (d : EntityDiff T) :
    (l.foldl (diffOldStep newMap) d).added = d.added := by
  induction l generalizing d with
  | nil => rfl
  | cons kv rest ih =>
      rw [List.foldl_cons, ih]
      unfold diffOldStep
      cases hl : lookupA newMap kv.1 <;> simp

theorem foldl_diffOldStep_removed (newMap : List (String × T))
    (l : List (String × T)) (d : EntityDiff T) :
    (l.foldl (diffOldStep newMap) d).removed
      = d.removed ++ (l.filter (keyAbsentB newMap)).map Prod.snd := by
  induction l generalizing d with
  | nil => simp
  | cons kv rest ih =>
      rw [List.foldl_cons, ih, List.filter_cons]
      unfold diffOldStep keyAbsentB
      cases hl : lookupA newMap kv.1 <;> simp [hl]

theorem wf_buildMapG (keyOf : T → String) (l : List T) :
    wfMap keyOf (buildMapG keyOf l) := by
  have aux : ∀ (l : List T) (m : List (String × T)), wfMap keyOf m →
      wfMap keyOf (l.foldl (fun m v => insertA m (keyOf v) v) m) := by
    intro l
    induction l with
    | nil => intro m hm; exact hm
    | cons v rest ih =>
        intro m hm
        rw [List.foldl_cons]
        exact ih _ (wfMap_insertA m v hm)
  exact aux l [] ⟨List.nodup_nil, by simp⟩

theorem mem_modified_analyzeEntity (keyOf : T → String) (eqFn : T → T → Bool)
    (oldL newL : List T) (x : T) :
    x ∈ (analyzeEntity keyOf eqFn oldL newL).modified ↔
      ∃ kv ∈ buildMapG keyOf newL, kv.2 = x ∧
        isModB (buildMapG keyOf oldL) eqFn kv = true := by
  unfold analyzeEntity
  rw [foldl_diffOldStep_modified, foldl_diffNewStep_modified]
  simp only [List.nil_append, List.mem_map, List.mem_filter]
  constructor
  · rintro ⟨kv, ⟨hmem, hmod⟩, hv⟩
    exact ⟨kv, hmem, hv, hmod⟩
  · rintro ⟨kv, hmem, hv, hmod⟩
    exact ⟨kv, ⟨hmem, hmod⟩, hv⟩

theorem mem_added_analyzeEntity (keyOf : T → String) (eqFn : T → T → Bool)
    (oldL newL : List T) (x : T) :
    x ∈ (analyzeEntity keyOf eqFn oldL newL).added ↔
      ∃ kv ∈ buildMapG keyOf newL, kv.2 = x ∧
        keyAbsentB (buildMapG keyOf oldL) kv = true := by
  unfold analyzeEntity
  rw [foldl_diffOldStep_added, foldl_diffNewStep_added]
  simp only [List.nil_append, List.mem_map, List.mem_filter]
  constructor
  · rintro ⟨kv, ⟨hmem, hab⟩, hv⟩
    exact ⟨kv, hmem, hv, hab⟩
  · rintro ⟨kv, hmem, hv, hab⟩
    exact ⟨kv, ⟨hmem, hab⟩, hv⟩

theorem mem_removed_analyzeEntity (keyOf : T → String) (eqFn : T → T → Bool)
    (oldL newL : List T) (y : T) :
    y ∈ (analyzeEntity keyOf eqFn oldL newL).removed ↔
      ∃ kv ∈ buildMapG keyOf oldL, kv.2 = y ∧
        keyAbsentB (buildMapG keyOf newL) kv = true := by
  unfold analyzeEntity
  rw [foldl_diffOldStep_removed, foldl_diffNewStep_removed (buildMapG keyOf oldL) eqFn]
  simp only [List.nil_append, List.mem_map, List.mem_filter]
  constructor
  · rintro ⟨kv, ⟨hmem, hab⟩, hv⟩
    exact ⟨kv, hmem, hv, hab⟩
  · rintro ⟨kv, hmem, hv, hab⟩
    exact ⟨kv, ⟨hmem, hab⟩, hv⟩

theorem analyzeEntity_classify (keyOf : T → String) (eqFn : T → T → Bool)
    (oldL newL : List T) (x y : T)
    (hy : lookupA (buildMapG keyOf oldL) (keyOf x) = some y)
    (hx : lookupA (buildMapG keyOf newL) (keyOf x) = some x) :
    (x ∈ (analyzeEntity keyOf eqFn oldL newL).modified ↔ eqFn y x = false) ∧
    x ∉ (analyzeEntity keyOf eqFn oldL newL).added ∧
    y ∉ (analyzeEntity keyOf eqFn oldL newL).removed := by
  have hwfold := wf_buildMapG keyOf oldL
  have hwfnew := wf_buildMapG keyOf newL
  refine ⟨?_, ?_, ?_⟩
  · rw [mem_modified_analyzeEntity]
    constructor
    · rintro ⟨kv, hkv, hveq, hmod⟩
      have hkey : keyOf kv.2 = kv.1 := hwfnew.2 kv hkv
      rw [hveq] at hkey
      unfold isModB at hmod
      rw [← hkey, hy] at hmod
      rw [hveq] at hmod
      simpa using hmod
    · intro hne
      refine ⟨(keyOf x, x), mem_of_lookupA_eq _ _ _ hx, rfl, ?_⟩
      unfold isModB
      simp only at hy ⊢
      rw [hy]
      simp [hne]
  · rw [mem_added_analyzeEntity]
    rintro ⟨kv, hkv, hveq, hab⟩
    have hkey : keyOf kv.2 = kv.1 := hwfnew.2 kv hkv
    rw [hveq] at hkey
    unfold keyAbsentB at hab
    rw [← hkey, hy] at hab
    simp at hab
  · rw [mem_removed_analyzeEntity]
    rintro ⟨kv, hkv, hveq, hab⟩
    have hkey : keyOf kv.2 = kv.1 := hwfold.2 kv hkv
    rw [hveq] at hkey
    have hyx : keyOf y = keyOf x :=
      hwfold.2 (keyOf x, y) (mem_of_lookupA_eq _ _ _ hy)
    unfold keyAbsentB at hab
    rw [← hkey, hyx, hx] at hab
    simp at hab

end DifferLemmas

theorem functionsEqual_iff (g f : FunctionEntity) :
    functionsEqual g f = true ↔
      (g.startLine = f.startLine ∧ g.endLine = f.endLine ∧
       g.signature = f.signature ∧ g.isAsync = f.isAsync ∧
       g.isExport = f.isExport) := by
  simp [functionsEqual, and_assoc]

theorem classesEqual_iff (d c : ClassEntity) :
    classesEqual d c = true ↔
      (d.startLine = c.startLine ∧ d.endLine = c.endLine ∧
       d.isExport = c.isExport ∧ d.isAbstract = c.isAbstract ∧
       d.methods = c.methods) := by
  simp [classesEqual, and_assoc]

/-! ### Lemmas about the engine's processing pipeline -/

theorem commitTracker_bp (env : Env) (s : EMState) (p : String) :
    (commitTracker env s p).bp = s.bp := by
  unfold commitTracker
  split <;> rfl

theorem commitTracker_metrics (env : Env) (s : EMState) (p : String) :
    (commitTracker env s p).metrics = s.metrics := by
  unfold commitTracker
  split <;> rfl

theorem processFileImmediate_bp (env : Env) (s : EMState) (p : String) :
    (processFileImmediate env s p).bp = s.bp := by
  simp only [processFileImmediate]
  repeat' split
  all_goals simp [commitTracker_bp, recordError, recordChange,
    applyEntityChanges, updateEntities]

theorem processFileImmediate_filesProcessed (env : Env) (s : EMState) (p : String) :
    (processFileImmediate env s p).metrics.filesProcessed
      = s.metrics.filesProcessed := by
  simp only [processFileImmediate]
  repeat' split
  all_goals simp [commitTracker_metrics, recordError, recordChange,
    applyEntityChanges, updateEntities]

theorem processFileImmediate_changes_of_changed (env : Env) (s : EMState) (p : String)
    (h : FileTracker.HasChanged env.disk s.tracker p = .ok true) :
    (processFileImmediate env s p).metrics.changesDetected
      = s.metrics.changesDetected + 1 := by
  simp only [processFileImmediate, h]
  repeat' split
  all_goals simp [commitTracker_metrics, recordError, recordChange,
    applyEntityChanges, updateEntities]

theorem handleRemoval_cache (s : EMState) (p : String) :
    (handleRemoval s p).cache = s.cache := rfl

theorem batchStep_filesProcessed (env : Env) (s : EMState) (c : FileChange) :
    (batchStep env s c).metrics.filesProcessed = s.metrics.filesProcessed := by
  unfold batchStep
  split
  · exact processFileImmediate_filesProcessed env s c.path
  · exact processFileImmediate_filesProcessed env s c.path
  · rfl

theorem batchStep_bp (env : Env) (s : EMState) (c : FileChange) :
    (batchStep env s c).bp = s.bp := by
  unfold batchStep
  split
  · exact processFileImmediate_bp env s c.path
  · exact processFileImmediate_bp env s c.path
  · rfl

theorem processBatch_filesProcessed (env : Env) (s : EMState) (changes : List FileChange) :
    (processBatch env s changes).metrics.filesProcessed
      = s.metrics.filesProcessed := by
  unfold processBatch
  induction changes generalizing s with
  | nil => rfl
  | cons c rest ih =>
      rw [List.foldl_cons, ih (batchStep env s c), batchStep_filesProcessed]

theorem processBatch_bp (env : Env) (s : EMState) (changes : List FileChange) :
    (processBatch env s changes).bp = s.bp := by
  unfold processBatch
  induction changes generalizing s with
  | nil => rfl
  | cons c rest ih =>
      rw [List.foldl_cons, ih (batchStep env s c), batchStep_bp]

/-! ### Claims -/

/-- C1, amended: for a tracked file whose bytes AND mtime are both unchanged
between two processed events, processing the second event leaves the engine
state literally untouched — zero sink upserts for entities or relationships,
zero errors, and `changes_detected` unchanged.  (The claim over bytes alone
fails: a touch bumps the mtime, `HasChanged` reports a change and
`changes_detected` increments — see the counterexample.) -/
theorem c1_change_suppression (env : Env) (s : EMState) (p : String)
    (f : FileOnDisk) (st : FileState)
    (hdisk : env.disk p = some f)
    (hst : lookupA s.tracker p = some st)
    (hh : st.hash = f.hash) (hm : st.modified = f.mtime) :
    processFileImmediate env s p = s := by
  have hhc : FileTracker.HasChanged env.disk s.tracker p = .ok false := by
    simp [FileTracker.HasChanged, hdisk, hst, hh, hm]
  simp [processFileImmediate, hhc]

/-- Witness for C1 at a concrete unchanged file. -/
theorem c1_change_suppression_witness :
    processFileImmediate envBase sA "/t/a.ts" = sA :=
  c1_change_suppression envBase sA "/t/a.ts" { hash := "h", mtime := 1 } recA
    (by decide) (by decide) (by decide) (by decide)

/-- Counterexample to C1 as stated: `touch a.ts` (same bytes, bumped mtime)
makes `changes_detected` reach 1 — not 0 as the claim demands — even though
errors stay 0 and no sink upsert is issued (diff mode finds an empty delta). -/
theorem c1_touch_counterexample :
    (processFileImmediate envTouch sA "/t/a.ts").metrics.changesDetected = 1 ∧
    (processFileImmediate envTouch sA "/t/a.ts").metrics.errors = 0 ∧
    (processFileImmediate envTouch sA "/t/a.ts").sinkOps = [] := by decide

/-- C2: between two flushes, the pending map built by `Add` holds at most
one entry per path, and for a path that received at least one event the
flushed batch (the values of the pending map) carries exactly the latest
event added for that path. -/
theorem c2_coalescing (bp : BPState) (evs : List FileChange) (p : String)
    (e : FileChange) (hwf : wfMap FileChange.path bp.pendingChanges)
    (hlast : lastFor p evs = some e) :
    (valuesA ((evs.foldl BatchProcessor.Add bp).pendingChanges)).filter
        (fun c => decide (c.path = p)) = [e] := by
  have hwf' := wf_foldl_Add evs bp hwf
  rw [filter_valuesA FileChange.path _ p hwf', lookupA_foldl_Add, hlast]
  rfl

/-- Witness for C2: two events for `a.ts` coalesce to the later one. -/
theorem c2_coalescing_witness :
    (valuesA (([evA1, evA2].foldl BatchProcessor.Add ({} : BPState)).pendingChanges)).filter
        (fun c => decide (c.path = "a.ts")) = [evA2] :=
  c2_coalescing {} [evA1, evA2] "a.ts" evA2 ⟨List.nodup_nil, by simp⟩ (by decide)

/-- C3, amended: on a failed flush every event's retry count is incremented;
an event still below the bound of 3 is written back into the pending map by
an unconditional map write — so it overwrites any fresh event for the same
path added during the failed processing (the claim's "fresh event is not
overwritten" fails, see the counterexample) — and an event reaching 3 is
dropped; hence after 3 consecutive failing flushes the pending map is empty,
and a later `Add` of a fresh event re-enters it normally. -/
theorem c3_retry_bound (bp : BPState) :
    (BatchProcessor.flushErr (BatchProcessor.flushErr
        (BatchProcessor.flushErr bp))).pendingChanges = [] ∧
    (∀ c : FileChange, c.retries + 1 < 3 →
      lookupA (handleFailedBatch bp [c]).pendingChanges c.path
        = some { c with retries := c.retries + 1 }) ∧
    (∀ c : FileChange, ¬ c.retries + 1 < 3 →
      (handleFailedBatch bp [c]).pendingChanges = bp.pendingChanges) ∧
    (∀ e : FileChange,
      lookupA ((BatchProcessor.Add (BatchProcessor.flushErr (BatchProcessor.flushErr
          (BatchProcessor.flushErr bp))) e).pendingChanges) e.path = some e) := by
  refine ⟨flushErr_thrice bp, ?_, ?_, ?_⟩
  · intro c hc
    have hstep : retryStep bp.pendingChanges c
        = insertA bp.pendingChanges c.path { c with retries := c.retries + 1 } := by
      simp [retryStep, hc]
    simp only [handleFailedBatch, List.foldl_cons, List.foldl_nil, hstep]
    exact lookupA_insertA_self bp.pendingChanges c.path _
  · intro c hc
    simp [handleFailedBatch, retryStep, hc]
  · intro e
    simp [lookupA_Add]

/-- Witness for C3: a once-pending event is gone after three failing
flushes, and a single failed event is re-queued with one retry. -/
theorem c3_retry_bound_witness :
    (BatchProcessor.flushErr (BatchProcessor.flushErr
        (BatchProcessor.flushErr bpOne))).pendingChanges = [] ∧
    lookupA (handleFailedBatch bpOne [staleEv]).pendingChanges "a.ts"
      = some { staleEv with retries := 1 } := by
  refine ⟨(c3_retry_bound bpOne).1, ?_⟩
  exact (c3_retry_bound bpOne).2.1 staleEv (by decide)

/-- Counterexample to C3 as stated: a fresh event for `a.ts` sitting in the
pending map IS overwritten by the stale retried event of the failed batch. -/
theorem c3_fresh_overwritten_counterexample :
    lookupA (handleFailedBatch bpFresh [staleEv]).pendingChanges "a.ts"
        = some { path := "a.ts", ctype := .modify, timestamp := 5, retries := 1 } ∧
    lookupA (handleFailedBatch bpFresh [staleEv]).pendingChanges "a.ts"
        ≠ some freshEv := by decide

/-- C4: while paused, `processFile` drops every incoming event with no state
change at all; `processBatch` (the flush path) never moves the
`files_processed` counter in any state, paused ones included; and once
unpaused (batching off) a processed file bumps `files_processed`, a changed
one also `changes_detected`. -/
theorem c4_pause_gate (env : Env) (s : EMState) (p : String)
    (changes : List FileChange) :
    (s.isPaused = true → EnhancedMonitor.processFile env s p = s) ∧
    (processBatch env s changes).metrics.filesProcessed = s.metrics.filesProcessed ∧
    (s.isPaused = false → env.batchingEnabled = false →
      (EnhancedMonitor.processFile env s p).metrics.filesProcessed
        = s.metrics.filesProcessed + 1) ∧
    (s.isPaused = false → env.batchingEnabled = false →
      FileTracker.HasChanged env.disk s.tracker p = .ok true →
      (EnhancedMonitor.processFile env s p).metrics.changesDetected
        = s.metrics.changesDetected + 1) := by
  refine ⟨?_, processBatch_filesProcessed env s changes, ?_, ?_⟩
  · intro hp
    simp [EnhancedMonitor.processFile, hp]
  · intro hp hb
    simp [EnhancedMonitor.processFile, hp, hb, recordFileProcessed,
      processFileImmediate_filesProcessed]
  · intro hp hb hch
    simp only [EnhancedMonitor.processFile, hp, hb, Bool.false_eq_true, if_false]
    simp [recordFileProcessed]
    exact processFileImmediate_changes_of_changed env s p hch

/-- Witness for C4: a paused engine drops the event; after resume the same
event bumps `files_processed`. -/
theorem c4_pause_gate_witness :
    EnhancedMonitor.processFile envBase { sA with isPaused := true } "/t/a.ts"
        = { sA with isPaused := true } ∧
    (EnhancedMonitor.processFile envTouch sA "/t/a.ts").metrics.filesProcessed
        = sA.metrics.filesProcessed + 1 := by
  refine ⟨(c4_pause_gate envBase { sA with isPaused := true } "/t/a.ts" []).1 rfl, ?_⟩
  exact (c4_pause_gate envTouch sA "/t/a.ts" []).2.2.1 rfl rfl

/-- C5, amended: when the file exists, `HasChanged` answers `yes` exactly
when no fingerprint record exists or the stored hash or stored mtime
differs, and `no` otherwise; when the file is missing, `HasChanged` returns
a plain I/O error — not a distinguished `missing` result — and the engine
logs it, increments `errors` and returns with the tracker untouched rather
than treating it as a removal (see the counterexample). -/
theorem c5_change_query (env : Env) (s : EMState) (p : String) :
    (env.disk p = none → processFileImmediate env s p = recordError s) ∧
    (∀ f : FileOnDisk, env.disk p = some f →
      (FileTracker.HasChanged env.disk s.tracker p = .ok true ↔
        lookupA s.tracker p = none ∨
          ∃ st, lookupA s.tracker p = some st ∧
            (st.hash ≠ f.hash ∨ st.modified ≠ f.mtime)) ∧
      (FileTracker.HasChanged env.disk s.tracker p = .ok false ↔
        ∃ st, lookupA s.tracker p = some st ∧
          st.hash = f.hash ∧ st.modified = f.mtime)) := by
  constructor
  · intro hd
    simp [processFileImmediate, FileTracker.HasChanged, hd]
  · intro f hd
    unfold FileTracker.HasChanged
    rw [hd]
    cases hlk : lookupA s.tracker p with
    | none => simp
    | some st => simp [bne, ← Bool.decide_or, decide_eq_true_iff, decide_eq_false_iff_not]

/-- Witness for C5: a missing file yields the error path; an unchanged
existing file answers `no`. -/
theorem c5_change_query_witness :
    processFileImmediate envGone sA "/t/a.ts" = recordError sA ∧
    FileTracker.HasChanged envBase.disk sA.tracker "/t/a.ts" = .ok false := by
  refine ⟨(c5_change_query envGone sA "/t/a.ts").1 rfl, ?_⟩
  exact ((c5_change_query envBase sA "/t/a.ts").2 { hash := "h", mtime := 1 }
    (by decide)).2.mpr ⟨recA, by decide, by decide, by decide⟩

/-- Counterexample to C5 as stated: for a tracked file deleted from disk the
engine does not treat the event as a removal — the fingerprint record is
still present afterwards and the `errors` counter was incremented instead. -/
theorem c5_missing_not_removal_counterexample :
    (processFileImmediate envGone sA "/t/a.ts").metrics.errors = 1 ∧
    lookupA (processFileImmediate envGone sA "/t/a.ts").tracker "/t/a.ts"
      = some recA := by decide

/-- C6, amended: on a first observation `AnalyzeChanges` marks as added
exactly the collections the `EntityChanges` struct can carry — functions,
classes, interfaces, types, imports and function calls — caches the new
parse and returns `has_changes = true`; variables, constants, JSX elements,
CSS rules, type usages, extends, implements and references are dropped
(the struct has no fields for them — see the counterexample). -/
theorem c6_first_observation (cache : List (String × CachedParse)) (p : String)
    (pf : ParsedFile) (hnone : lookupA cache p = none) :
    (AnalyzeChanges cache p pf).1.addedFunctions = pf.funcs ∧
    (AnalyzeChanges cache p pf).1.addedClasses = pf.classes ∧
    (AnalyzeChanges cache p pf).1.addedInterfaces = pf.interfaces ∧
    (AnalyzeChanges cache p pf).1.addedTypes = pf.types ∧
    (AnalyzeChanges cache p pf).1.addedImports = pf.imports ∧
    (AnalyzeChanges cache p pf).1.addedFunctionCalls = pf.functionCalls ∧
    (AnalyzeChanges cache p pf).1.modifiedFunctions = [] ∧
    (AnalyzeChanges cache p pf).1.removedFunctions = [] ∧
    (AnalyzeChanges cache p pf).2.1 = true ∧
    lookupA (AnalyzeChanges cache p pf).2.2 p
      = some { parsedFile := pf, hash := "" } := by
  simp [AnalyzeChanges, hnone, lookupA_insertA_self]

/-- Witness for C6 at a first-seen file. -/
theorem c6_first_observation_witness :
    (AnalyzeChanges [] "v.ts" pfVar).1.addedFunctions = pfVar.funcs ∧
    (AnalyzeChanges [] "v.ts" pfVar).2.1 = true := by
  have h := c6_first_observation [] "v.ts" pfVar rfl
  exact ⟨h.1, h.2.2.2.2.2.2.2.2.1⟩

/-- Counterexample to C6 as stated: a first parse carrying exactly one
entity (a variable) produces an `EntityChanges` carrying zero entities in
any of its lists — the variable went into no added list. -/
theorem c6_dropped_kinds_counterexample :
    (AnalyzeChanges [] "v.ts" pfVar).2.1 = true ∧
    pfVar.totalEntities = 1 ∧
    (AnalyzeChanges [] "v.ts" pfVar).1.totalEntities = 0 := by decide

/-- C7, amended: after the engine handles a removal, the content tracker no
longer holds a fingerprint record for the path, but the diff analyzer's
parse cache is untouched — `RemoveFromCache` exists in the source yet has no
caller, so the cache entry is never evicted (see the counterexample). -/
theorem c7_removal_eviction (s : EMState) (p : String) :
    lookupA (handleRemoval s p).tracker p = none ∧
    (handleRemoval s p).cache = s.cache := by
  constructor
  · exact lookupA_eraseA_self s.tracker p
  · exact handleRemoval_cache s p

/-- Counterexample to C7 as stated: after removing `/t/a.ts` the tracker no
longer lists it, yet the parse cache still holds its entry. -/
theorem c7_cache_not_evicted_counterexample :
    lookupA (handleRemoval sA "/t/a.ts").tracker "/t/a.ts" = none ∧
    lookupA (handleRemoval sA "/t/a.ts").cache "/t/a.ts"
      = some { parsedFile := pfEmpty, hash := "" } := by decide

/-- C8: for a function name present in both parses, the new function lands
in `modified` exactly when start line, end line, signature, async flag or
export flag differ (and in neither `added` nor `removed`); for a class name
present in both parses, the new class lands in `modified` exactly when start
line, end line, export flag, abstract flag or the method-name list differ
(and in neither `added` nor `removed`). -/
theorem c8_structural_equality
    (oldFuncs newFuncs : List FunctionEntity) (f g : FunctionEntity)
    (oldClasses newClasses : List ClassEntity) (c d : ClassEntity)
    (hgf : lookupA (buildMapG (fun x => x.name) oldFuncs) f.name = some g)
    (hff : lookupA (buildMapG (fun x => x.name) newFuncs) f.name = some f)
    (hdc : lookupA (buildMapG (fun x => x.name) oldClasses) c.name = some d)
    (hcc : lookupA (buildMapG (fun x => x.name) newClasses) c.name = some c) :
    ((f ∈ (analyzeFunctionChanges oldFuncs newFuncs).modified ↔
        ¬(g.startLine = f.startLine ∧ g.endLine = f.endLine ∧
          g.signature = f.signature ∧ g.isAsync = f.isAsync ∧
          g.isExport = f.isExport)) ∧
      f ∉ (analyzeFunctionChanges oldFuncs newFuncs).added ∧
      g ∉ (analyzeFunctionChanges oldFuncs newFuncs).removed) ∧
    ((c ∈ (analyzeClassChanges oldClasses newClasses).modified ↔
        ¬(d.startLine = c.startLine ∧ d.endLine = c.endLine ∧
          d.isExport = c.isExport ∧ d.isAbstract = c.isAbstract ∧
          d.methods = c.methods)) ∧
      c ∉ (analyzeClassChanges oldClasses newClasses).added ∧
      d ∉ (analyzeClassChanges oldClasses newClasses).removed) := by
  have hfn := analyzeEntity_classify (fun x => x.name) functionsEqual
    oldFuncs newFuncs f g hgf hff
  have hcl := analyzeEntity_classify (fun x => x.name) classesEqual
    oldClasses newClasses c d hdc hcc
  refine ⟨⟨?_, hfn.2.1, hfn.2.2⟩, ⟨?_, hcl.2.1, hcl.2.2⟩⟩
  · unfold analyzeFunctionChanges
    rw [hfn.1, Bool.eq_false_iff]
    exact not_congr (functionsEqual_iff g f)
  · unfold analyzeClassChanges
    rw [hcl.1, Bool.eq_false_iff]
    exact not_congr (classesEqual_iff d c)

/-- Witness for C8: a function moved to other lines is modified; a class
with identical structural fields is not. -/
theorem c8_structural_equality_witness :
    fNew ∈ (analyzeFunctionChanges [fOld] [fNew]).modified ∧
    cSame ∉ (analyzeClassChanges [cSame] [cSame]).modified := by
  have h := c8_structural_equality [fOld] [fNew] fNew fOld [cSame] [cSame] cSame cSame
    (by decide) (by decide) (by decide) (by decide)
  exact ⟨h.1.1.mpr (by decide), fun hc => (h.2.1.mp hc) (by decide)⟩

/-- C9, amended: `Stop` returns an error only for the final
fingerprint-save failure; the graph sink is never closed by `Stop`, so the
returned error is never a sink-close error (as stated — "only sink-close
failures propagate" — the claim fails, see the counterexample); runtime
parse, sink and tracker errors are swallowed by the handlers, which return
no error at all. -/
theorem c9_stop_error (env : Env) (s : EMState) (e : StopError)
    (h : (Monitor.Stop env s).2 = some e) :
    e.isSinkClose = false ∧ ∃ io : IOErr, e = StopError.saveFailed io := by
  unfold Monitor.Stop at h
  cases hse : env.saveErr with
  | none =>
      rw [hse] at h
      simp at h
  | some io =>
      rw [hse] at h
      simp only [Option.some.injEq] at h
      subst h
      exact ⟨rfl, io, rfl⟩

/-- Witness for C9 at a failing final save. -/
theorem c9_stop_error_witness :
    (StopError.saveFailed { msg := "disk full" }).isSinkClose = false ∧
    ∃ io : IOErr,
      StopError.saveFailed { msg := "disk full" } = StopError.saveFailed io :=
  c9_stop_error envSaveFail sA (StopError.saveFailed { msg := "disk full" })
    (by decide)

/-- Counterexample to C9 as stated: when the final fingerprint save fails,
`Stop` returns that save error — an error that is not a sink-close failure,
so "stop() returns an error only for a sink-close failure" is false. -/
theorem c9_save_error_counterexample :
    (Monitor.Stop envSaveFail sA).2
        = some (StopError.saveFailed { msg := "disk full" }) ∧
    Option.map StopError.isSinkClose (Monitor.Stop envSaveFail sA).2
        = some false := by decide

/-- C10: `processBatch` returns `nil` for every batch, so with it installed
as the batch processor's process function the flush error branch is
unreachable: the batch `Errors` counter never moves and the pending map is
left empty (no `handleFailedBatch` re-enqueue happens). -/
theorem c10_process_batch_nil (env : Env) (s : EMState) (changes : List FileChange) :
    (processBatchF env s changes).2 = none ∧
    (flushWith (processBatchF env) s).bp.metrics.errors = s.bp.metrics.errors ∧
    (flushWith (processBatchF env) s).bp.pendingChanges = [] := by
  by_cases he : s.bp.pendingChanges.isEmpty
  · have hred : flushWith (processBatchF env) s = s := by
      unfold flushWith
      rw [if_pos he]
    exact ⟨rfl, by rw [hred], by rw [hred]; exact List.isEmpty_iff.mp he⟩
  · refine ⟨rfl, ?_, ?_⟩
    · show (flushWith (processBatchF env) s).bp.metrics.errors = s.bp.metrics.errors
      unfold flushWith
      rw [if_neg he]
      show (updateBatchMetrics
          (processBatch env { s with bp := { s.bp with pendingChanges := [] } }
            (valuesA s.bp.pendingChanges)).bp.metrics
          (valuesA s.bp.pendingChanges).length false).errors
        = s.bp.metrics.errors
      rw [processBatch_bp]
      simp [updateBatchMetrics]
    · unfold flushWith
      rw [if_neg he]
      show (processBatch env { s with bp := { s.bp with pendingChanges := [] } }
          (valuesA s.bp.pendingChanges)).bp.pendingChanges = []
      rw [processBatch_bp]

end GoParser
